import Mathlib

/-!
# git-bug bridge core: registry, configuration persistence, capability dispatch

A shallow embedding of `bridge/core/bridge.go` and `bridge/core/interfaces.go`.

* Go maps are association lists with one entry per key (`mapGet`, `mapSet`); a nil map is
  `none` where the source tests for nil.
* Everything outside the package (the spawned `git` process, the plugin's methods) acts on an
  external state `σ`; every such call is also appended to a log, so that "which calls were
  made" can be stated.
* Go strings are modelled by Lean strings; the text functions of package `strings` work on the
  list of characters.
-/

set_option autoImplicit false

namespace GitBug

/-! ## Go values -/

/-- Go `error` values: the two exported sentinels of the package and errors built by
`fmt.Errorf` (a plugin may return any of them). -/
inductive GoError where
  | ErrImportNorSupported
  | ErrExportNorSupported
  | Errorf (msg : String)
  deriving DecidableEq, Repr

/-- Go `map[string]V`: an association list holding at most one entry per key. -/
abbrev GoMap (α : Type) := List (String × α)

/-- Map read `m[key]` with the `ok` flag: `none` when the key is absent. -/
def mapGet {α : Type} : GoMap α → String → Option α
  | [], _ => none
  | (k, v) :: rest, key => if k = key then some v else mapGet rest key

/-- Map write `m[key] = val`: overwrites the entry of `key` or adds one. -/
def mapSet {α : Type} : GoMap α → String → α → GoMap α
  | [], key, val => [(key, val)]
  | (k, v) :: rest, key, val =>
    if k = key then (key, val) :: rest else (k, v) :: mapSet rest key val

/-- The type `Configuration map[string]string` of interfaces.go. As the argument of `storeConfig`
the list order is the order in which `range` visits the map. -/
abbrev Configuration := GoMap String

/-! ## Package `strings` -/

/-- Go `unicode.IsSpace`: the Unicode White_Space property. -/
def isSpace (c : Char) : Bool :=
  let n := c.toNat
  (9 ≤ n && n ≤ 13) || n == 0x20 || n == 0x85 || n == 0xA0 || n == 0x1680 ||
    (0x2000 ≤ n && n ≤ 0x200A) || n == 0x2028 || n == 0x2029 || n == 0x202F ||
    n == 0x205F || n == 0x3000

/-- Go `strings.Split(s, "\n")` on the characters of `s`: the pieces between newlines, always
at least one piece. -/
def splitLines : List Char → List (List Char)
  | [] => [[]]
  | c :: cs =>
    if c = '\n' then [] :: splitLines cs
    else
      match splitLines cs with
      | [] => [[c]]
      | l :: ls => (c :: l) :: ls

/-- Go `strings.TrimSpace`: drops leading and trailing white space. -/
def TrimSpace (l : List Char) : List Char :=
  ((l.dropWhile isSpace).reverse.dropWhile isSpace).reverse

/-- The scanning loop of `strings.Fields`: the second argument is the field being read
(reversed), `none` while white space is skipped. -/
def fieldsGo : List Char → Option (List Char) → List (List Char)
  | [], none => []
  | [], some tok => [tok.reverse]
  | c :: cs, none => if isSpace c then fieldsGo cs none else fieldsGo cs (some [c])
  | c :: cs, some tok =>
    if isSpace c then tok.reverse :: fieldsGo cs none else fieldsGo cs (some (c :: tok))

/-- Go `strings.Fields`: the maximal runs of non-space characters. -/
def Fields (l : List Char) : List (List Char) := fieldsGo l none

/-! ## The world outside the package -/

/-- An `exec.Cmd` as prepared by the source: program and arguments, and the `Dir` field. -/
structure Cmd where
  Args : List String
  Dir : String
  deriving DecidableEq, Repr

/-- What `cmd.CombinedOutput()` returns: the output bytes and whether `err != nil`. -/
structure CmdResult where
  out : String
  failed : Bool
  deriving DecidableEq, Repr

/-- One call leaving the package, in the order the calls are made. `ρ` is the type of the
repository handle (`repository.RepoCommon`, `*cache.RepoCache`). -/
inductive Event (ρ : Type) where
  | exec (cmd : Cmd) (res : CmdResult)
  | callType
  | callConfigure (repo : ρ)
  | callImporter
  | callExporter
  | callImportAll (repo : ρ) (conf : Configuration)
  | callImport (repo : ρ) (conf : Configuration) (id : String)
  | callExportAll (repo : ρ) (conf : Configuration)
  | callExport (repo : ρ) (conf : Configuration) (id : String)

/-- External state together with the log of calls made so far (oldest first). -/
structure World (σ ρ : Type) where
  ext : σ
  log : List (Event ρ)

/-- What the package needs from its surroundings: running a prepared command
(`CombinedOutput`) and `repo.GetPath()`. -/
structure Host (σ ρ : Type) where
  run : Cmd → σ → CmdResult × σ
  GetPath : ρ → String

/-- Appends one event to the log. -/
def World.record {σ ρ : Type} (w : World σ ρ) (e : Event ρ) : World σ ρ :=
  { w with log := w.log ++ [e] }

/-- Runs `cmd.CombinedOutput()` and logs the command with its outcome. -/
def execCmd {σ ρ : Type} (h : Host σ ρ) (cmd : Cmd) (w : World σ ρ) : CmdResult × World σ ρ :=
  let r := h.run cmd w.ext
  (r.1, { ext := r.2, log := w.log ++ [Event.exec cmd r.1] })

/-! ## interfaces.go -/

/-- Interface `Importer`. -/
structure Importer (σ ρ : Type) where
  ImportAll : ρ → Configuration → σ → Option GoError × σ
  Import : ρ → Configuration → String → σ → Option GoError × σ

/-- Interface `Exporter`. -/
structure Exporter (σ ρ : Type) where
  ExportAll : ρ → Configuration → σ → Option GoError × σ
  Export : ρ → Configuration → String → σ → Option GoError × σ

/-- Interface `BridgeImpl`. `TypeName` is the method `Type()`; `Importer()` and `Exporter()`
return nil (`none`) when the capability is not supported. The three accessors are constant:
every call on the same instance returns the same value. -/
structure BridgeImpl (σ ρ : Type) where
  TypeName : String
  Configure : ρ → σ → Except GoError Configuration × σ
  Importer : Option (Importer σ ρ)
  Exporter : Option (Exporter σ ρ)

/-! ## bridge.go -/

/-- The struct `Bridge`; `conf` is `none` for a nil map. -/
structure Bridge (σ ρ : Type) where
  Name : String
  impl : BridgeImpl σ ρ
  conf : Option Configuration

/-- The package variable `bridgeImpl map[string]reflect.Type`, nil until the first
`Register`; `τ` stands for `reflect.Type`. -/
abbrev Registry (τ : Type) := Option (GoMap τ)

/-- Function `Register(_type, impl)`, with `implType = reflect.TypeOf(impl)`. -/
def Register {τ : Type} (bridgeImpl : Registry τ) (_type : String) (implType : τ) :
    Registry τ :=
  let m := match bridgeImpl with
    | none => []
    | some m => m
  some (mapSet m _type implType)

/-- Read of the registry `bridgeImpl[_type]`; reading a nil map finds nothing. -/
def registryGet {τ : Type} (bridgeImpl : Registry τ) (_type : String) : Option τ :=
  match bridgeImpl with
  | none => none
  | some m => mapGet m _type

/-- How a call of `LoadBridge` ends. The body of the source has one `return` statement, the
failing one; after a successful lookup it allocates an instance, appends it to
`opp.Operations` and reaches the closing brace without returning. -/
inductive LoadBridgeResult (σ ρ : Type) where
  | returned (b : Option (Bridge σ ρ)) (err : Option GoError)
  | noReturn

/-- Function `LoadBridge(_type, name)`: the lookup and the failing return; a successful
lookup leads to the end of the body. -/
def LoadBridge {σ ρ τ : Type} (bridgeImpl : Registry τ) (_type : String) (_name : String) :
    LoadBridgeResult σ ρ :=
  match registryGet bridgeImpl _type with
  | none => LoadBridgeResult.returned none (some (GoError.Errorf ("unknown bridge type " ++ _type)))
  | some _ => LoadBridgeResult.noReturn

/-- The key written by `storeConfig`: `fmt.Sprintf("git-bug.%s.%s.%s", type, name, key)`. -/
def storeKey (_type name key : String) : String :=
  "git-bug." ++ _type ++ "." ++ name ++ "." ++ key

/-- The pattern queried by `loadConfig`: `fmt.Sprintf("git-bug.%s.%s", type, name)`. -/
def loadKey (_type name : String) : String :=
  "git-bug." ++ _type ++ "." ++ name

/-- The command `git config --replace-all storeKey val` run in the repository directory. -/
def storeCmd (dir storeKey val : String) : Cmd :=
  { Args := ["git", "config", "--replace-all", storeKey, val], Dir := dir }

/-- The command `git config --get-regexp key` run in the repository directory. -/
def loadCmd (dir key : String) : Cmd :=
  { Args := ["git", "config", "--get-regexp", key], Dir := dir }

/-- Method `(b *Bridge) storeConfig(repo, conf)`: one write per entry, stopping at the first write
that fails. -/
def storeConfig {σ ρ : Type} (h : Host σ ρ) (b : Bridge σ ρ) (repo : ρ) :
    Configuration → World σ ρ → Option GoError × World σ ρ
  | [], w => (none, w)
  | (key, val) :: rest, w =>
    let sk := storeKey b.impl.TypeName b.Name key
    let r := execCmd h (storeCmd (h.GetPath repo) sk val) (w.record Event.callType)
    if r.1.failed then
      (some (GoError.Errorf ("error while storing bridge configuration: " ++ r.1.out)), r.2)
    else storeConfig h b repo rest r.2

/-- Method `(b *Bridge) Configure(repo)`. -/
def Configure {σ ρ : Type} (h : Host σ ρ) (b : Bridge σ ρ) (repo : ρ) (w : World σ ρ) :
    Option GoError × World σ ρ :=
  let r := b.impl.Configure repo w.ext
  let w1 : World σ ρ := { ext := r.2, log := w.log ++ [Event.callConfigure repo] }
  match r.1 with
  | Except.error err => (some err, w1)
  | Except.ok conf => storeConfig h b repo conf w1

/-- The loop of `loadConfig` over the lines of the output: blank lines are skipped, a line
that does not have exactly two fields aborts with an error, otherwise
`result[parts[0]] = parts[1]`. -/
def loadLines : List (List Char) → Configuration → Except GoError Configuration
  | [], result => Except.ok result
  | line :: rest, result =>
    if TrimSpace line = [] then loadLines rest result
    else
      match Fields line with
      | [p0, p1] => loadLines rest (mapSet result (String.mk p0) (String.mk p1))
      | _ => Except.error (GoError.Errorf ("bad bridge configuration: " ++ String.mk line))

/-- The part of `loadConfig` after the command has succeeded: split the output into lines
and fill a fresh map. -/
def parseConfig (out : String) : Except GoError Configuration :=
  loadLines (splitLines out.data) []

/-- Method `(b Bridge) loadConfig(repo)`. -/
def loadConfig {σ ρ : Type} (h : Host σ ρ) (b : Bridge σ ρ) (repo : ρ) (w : World σ ρ) :
    Except GoError Configuration × World σ ρ :=
  let key := loadKey b.impl.TypeName b.Name
  let r := execCmd h (loadCmd (h.GetPath repo) key) (w.record Event.callType)
  if r.1.failed then
    (Except.error (GoError.Errorf ("error while reading bridge configuration: " ++ r.1.out)), r.2)
  else (parseConfig r.1.out, r.2)

/-- Method `(b Bridge) getConfig(repo)`. The receiver is a value: the assignment
`b.conf, err = b.loadConfig(repo)` changes the copy of the `Bridge` made for this call, and
`return b.conf, nil` reads that copy. Nothing but the result and the world leaves the call. -/
def getConfig {σ ρ : Type} (h : Host σ ρ) (b : Bridge σ ρ) (repo : ρ) (w : World σ ρ) :
    Except GoError Configuration × World σ ρ :=
  match b.conf with
  | none =>
    match loadConfig h b repo w with
    | (Except.error err, w1) => (Except.error err, w1)
    | (Except.ok conf, w1) => (Except.ok conf, w1)
  | some conf => (Except.ok conf, w)

/-- Method `(b Bridge) ImportAll(repo)`. -/
def ImportAll {σ ρ : Type} (h : Host σ ρ) (b : Bridge σ ρ) (repo : ρ) (w : World σ ρ) :
    Option GoError × World σ ρ :=
  let w1 := w.record Event.callImporter
  match b.impl.Importer with
  | none => (some GoError.ErrImportNorSupported, w1)
  | some importer =>
    match getConfig h b repo w1 with
    | (Except.error err, w2) => (some err, w2)
    | (Except.ok conf, w2) =>
      let w3 := w2.record Event.callImporter
      let r := importer.ImportAll repo conf w3.ext
      (r.1, { ext := r.2, log := w3.log ++ [Event.callImportAll repo conf] })

/-- Method `(b Bridge) Import(repo, id)`. -/
def Import {σ ρ : Type} (h : Host σ ρ) (b : Bridge σ ρ) (repo : ρ) (id : String)
    (w : World σ ρ) : Option GoError × World σ ρ :=
  let w1 := w.record Event.callImporter
  match b.impl.Importer with
  | none => (some GoError.ErrImportNorSupported, w1)
  | some importer =>
    match getConfig h b repo w1 with
    | (Except.error err, w2) => (some err, w2)
    | (Except.ok conf, w2) =>
      let w3 := w2.record Event.callImporter
      let r := importer.Import repo conf id w3.ext
      (r.1, { ext := r.2, log := w3.log ++ [Event.callImport repo conf id] })

/-- Method `(b Bridge) ExportAll(repo)`. -/
def ExportAll {σ ρ : Type} (h : Host σ ρ) (b : Bridge σ ρ) (repo : ρ) (w : World σ ρ) :
    Option GoError × World σ ρ :=
  let w1 := w.record Event.callExporter
  match b.impl.Exporter with
  | none => (some GoError.ErrExportNorSupported, w1)
  | some exporter =>
    match getConfig h b repo w1 with
    | (Except.error err, w2) => (some err, w2)
    | (Except.ok conf, w2) =>
      let w3 := w2.record Event.callExporter
      let r := exporter.ExportAll repo conf w3.ext
      (r.1, { ext := r.2, log := w3.log ++ [Event.callExportAll repo conf] })

/-- Method `(b Bridge) Export(repo, id)`. -/
def Export {σ ρ : Type} (h : Host σ ρ) (b : Bridge σ ρ) (repo : ρ) (id : String)
    (w : World σ ρ) : Option GoError × World σ ρ :=
  let w1 := w.record Event.callExporter
  match b.impl.Exporter with
  | none => (some GoError.ErrExportNorSupported, w1)
  | some exporter =>
    match getConfig h b repo w1 with
    | (Except.error err, w2) => (some err, w2)
    | (Except.ok conf, w2) =>
      let w3 := w2.record Event.callExporter
      let r := exporter.Export repo conf id w3.ext
      (r.1, { ext := r.2, log := w3.log ++ [Event.callExport repo conf id] })

/-! ## The repository configuration behind `git config`

The two commands the package spawns, on one repository whose configuration is a list of
`key value` entries: the key check of git (`git_config_parse_key`), the write, and the query
with its pattern read as a regular expression. -/

/-- Entries of the repository configuration, in file order, under their canonical keys. -/
abbrev GitStore := List (String × String)

/-- The characters git accepts in a section or variable name: ASCII letters, digits and the
hyphen (`iskeychar`). -/
def isKeyChar (c : Char) : Bool := c.isAlphanum || c == '-'

/-- The key check of git (`git_config_parse_key`): the key needs a section before its last dot
and a variable name after it; the section, up to the first dot, and the variable name consist
of key characters, the variable name starting with a letter, and both are lower-cased; the
subsection in between is kept as written and must not contain a newline. The result is the
canonical key or the message of the error. -/
def configKey (key : String) : Except String String :=
  let rev := key.data.reverse
  let var := (rev.takeWhile (fun c => c != '.')).reverse
  match rev.dropWhile (fun c => c != '.') with
  | [] => Except.error ("key does not contain a section: " ++ key)
  | _ :: baseRev =>
    let base := baseRev.reverse
    let sect := base.takeWhile (fun c => c != '.')
    let sub := base.dropWhile (fun c => c != '.')
    if base.isEmpty then Except.error ("key does not contain a section: " ++ key)
    else if var.isEmpty then Except.error ("key does not contain variable name: " ++ key)
    else if !sect.all isKeyChar then Except.error ("invalid key: " ++ key)
    else if sub.contains '\n' then Except.error ("invalid key (newline): " ++ key)
    else if !(var.all isKeyChar && (var.head?.map Char.isAlpha).getD false) then
      Except.error ("invalid key: " ++ key)
    else Except.ok (String.mk (sect.map Char.toLower ++ sub ++ '.' :: var.map Char.toLower))

/-- Effect of `git config --replace-all key val` for a canonical key: the key ends up with
the single value `val`. -/
def replaceAll (key val : String) : GitStore → GitStore
  | [] => [(key, val)]
  | (k, v) :: rest =>
    if k = key then (key, val) :: rest.filter (fun e => !(e.1 == key))
    else (k, v) :: replaceAll key val rest

/-- Lower-cases a text up to its first dot. -/
def lowerUntilDot (l : List Char) : List Char :=
  (l.takeWhile (fun c => c != '.')).map Char.toLower ++ l.dropWhile (fun c => c != '.')

/-- What git does to the pattern of `--get-regexp` before compiling it: the part before the
first dot and the part after the last dot are lower-cased. -/
def lowerEnds (pat : String) : String :=
  String.mk (lowerUntilDot (lowerUntilDot pat.data).reverse).reverse

/-- Output of `git config --get-regexp pat`. The pattern, its ends lower-cased, is compiled
(`compile`, `none` for an invalid pattern, which git reports); the command prints one line
`key value` per entry whose key the pattern matches and exits with status 1 when there is
none. -/
def getRegexp (compile : String → Option (String → Bool)) (pat : String) (s : GitStore) :
    CmdResult :=
  match compile (lowerEnds pat) with
  | none => { out := "error: invalid key pattern: " ++ pat ++ "\n", failed := true }
  | some m =>
    let hits := s.filter (fun e => m e.1)
    if hits.isEmpty then { out := "", failed := true }
    else { out := String.join (hits.map (fun e => e.1 ++ " " ++ e.2 ++ "\n")), failed := false }

/-- The `git` process as far as the package uses it; any other command line fails. A write
whose key git rejects fails with git's message and changes nothing. -/
def gitRun (compile : String → Option (String → Bool)) (cmd : Cmd) (s : GitStore) :
    CmdResult × GitStore :=
  match cmd.Args with
  | [a0, a1, a2, a3, a4] =>
    if a0 = "git" ∧ a1 = "config" ∧ a2 = "--replace-all" then
      match configKey a3 with
      | Except.error msg => ({ out := "error: " ++ msg ++ "\n", failed := true }, s)
      | Except.ok key => ({ out := "", failed := false }, replaceAll key a4 s)
    else ({ out := "", failed := true }, s)
  | [a0, a1, a2, a3] =>
    if a0 = "git" ∧ a1 = "config" ∧ a2 = "--get-regexp" then (getRegexp compile a3 s, s)
    else ({ out := "", failed := true }, s)
  | _ => ({ out := "", failed := true }, s)

/-! ### Extended regular expressions

The pattern of `--get-regexp` is a POSIX extended regular expression (`regcomp` with
`REG_EXTENDED`), matched anywhere in the key. Characters are compared by code point and the
character classes are those of the C locale. Where POSIX leaves the meaning of a pattern
open, the pattern is taken as invalid: an empty pattern, branch or group, a duplication
symbol at the start of a branch, after the anchor `^` or after another duplication symbol, a
backslash before an ordinary character, an opening parenthesis, bracket or brace that is not
closed. -/

/-- Abstract syntax of an extended regular expression. -/
inductive Regex where
  | empty
  | char (c : Char)
  | any
  | set (neg : Bool) (ranges : List (Char × Char))
  | bol
  | eol
  | seq (a b : Regex)
  | alt (a b : Regex)
  | star (a : Regex)
  deriving Repr

/-- Whether a character lies in one of the ranges of a bracket expression. -/
def inRanges (ranges : List (Char × Char)) (c : Char) : Bool :=
  ranges.any (fun r => decide (r.1.toNat ≤ c.toNat) && decide (c.toNat ≤ r.2.toNat))

/-- Repetition of a matching step: stop, or take one more step that consumes input. -/
def starLoop (step : Bool → List Char → (Bool → List Char → Bool) → Bool) :
    Nat → Bool → List Char → (Bool → List Char → Bool) → Bool
  | 0, b, s, k => k b s
  | n + 1, b, s, k =>
    k b s || step b s (fun b1 s1 => decide (s1.length < s.length) && starLoop step n b1 s1 k)

/-- Matching at the current position: `b` tells whether the position is the start of the
text, `s` is the text from the position on, and `k` decides on what follows the match. -/
def Regex.run : Regex → Bool → List Char → (Bool → List Char → Bool) → Bool
  | Regex.empty, b, s, k => k b s
  | Regex.char c, _, s, k =>
    match s with
    | x :: xs => x == c && k false xs
    | [] => false
  | Regex.any, _, s, k =>
    match s with
    | _ :: xs => k false xs
    | [] => false
  | Regex.set neg ranges, _, s, k =>
    match s with
    | x :: xs => (inRanges ranges x != neg) && k false xs
    | [] => false
  | Regex.bol, b, s, k => b && k b s
  | Regex.eol, b, s, k => s.isEmpty && k b s
  | Regex.seq a r, b, s, k => a.run b s (fun b1 s1 => r.run b1 s1 k)
  | Regex.alt a r, b, s, k => a.run b s k || r.run b s k
  | Regex.star a, b, s, k => starLoop a.run s.length b s k

/-- Matching at any position of the text (`regexec`). -/
def Regex.search (r : Regex) : Bool → List Char → Bool
  | b, [] => r.run b [] (fun _ _ => true)
  | b, c :: cs => r.run b (c :: cs) (fun _ _ => true) || Regex.search r false cs

/-- The duplication symbols: star, plus, question mark and the opening brace. -/
def isDupSymbol (c : Char) : Bool :=
  c == '*' || c == '+' || c == '?' || c.toNat == 123

/-- The characters that are special outside a bracket expression. -/
def isSpecial (c : Char) : Bool :=
  c == '^' || c == '.' || c == '[' || c == '$' || c == '(' || c == ')' || c == '|' ||
    c == '\\' || isDupSymbol c

/-- The character classes of a bracket expression, in the C locale. -/
def classRanges (name : List Char) : Option (List (Char × Char)) :=
  if name = "alpha".data then some [('A', 'Z'), ('a', 'z')]
  else if name = "digit".data then some [('0', '9')]
  else if name = "alnum".data then some [('0', '9'), ('A', 'Z'), ('a', 'z')]
  else if name = "upper".data then some [('A', 'Z')]
  else if name = "lower".data then some [('a', 'z')]
  else if name = "space".data then some [('\t', '\r'), (' ', ' ')]
  else if name = "blank".data then some [('\t', '\t'), (' ', ' ')]
  else if name = "punct".data then
    some [('!', '/'), (':', '@'), ('[', Char.ofNat 96), (Char.ofNat 123, '~')]
  else if name = "print".data then some [(' ', '~')]
  else if name = "graph".data then some [('!', '~')]
  else if name = "cntrl".data then
    some [(Char.ofNat 0, Char.ofNat 31), (Char.ofNat 127, Char.ofNat 127)]
  else if name = "xdigit".data then some [('0', '9'), ('A', 'F'), ('a', 'f')]
  else none

/-- One character of a bracket expression, written as itself or as a collating symbol. -/
def bracketElem : List Char → Option (Char × List Char)
  | '[' :: '.' :: c :: '.' :: ']' :: s => some (c, s)
  | '[' :: '.' :: _ => none
  | '[' :: '=' :: _ => none
  | '[' :: ':' :: _ => none
  | c :: s => some (c, s)
  | [] => none

/-- The items of a bracket expression up to the closing bracket: characters, ranges,
character classes and equivalence classes. `first` holds at the first item, where a closing
bracket stands for itself. -/
def bracketItems : Nat → Bool → List Char → List (Char × Char) →
    Option (List (Char × Char) × List Char)
  | 0, _, _, _ => none
  | n + 1, first, s, acc =>
    match s with
    | [] => none
    | '[' :: ':' :: s1 =>
      match s1.dropWhile (fun c => c != ':') with
      | ':' :: ']' :: s2 =>
        match classRanges (s1.takeWhile (fun c => c != ':')) with
        | some rs => bracketItems n false s2 (acc ++ rs)
        | none => none
      | _ => none
    | '[' :: '=' :: c :: '=' :: ']' :: s1 => bracketItems n false s1 (acc ++ [(c, c)])
    | c0 :: s0 =>
      if c0 == ']' && !first then some (acc, s0)
      else
        match bracketElem (c0 :: s0) with
        | none => none
        | some (lo, s1) =>
          match s1 with
          | '-' :: c :: s2 =>
            if c == ']' then bracketItems n false s1 (acc ++ [(lo, lo)])
            else
              match bracketElem (c :: s2) with
              | none => none
              | some (hi, s3) =>
                if lo.toNat ≤ hi.toNat then
                  match s3 with
                  | '-' :: d :: _ =>
                    if d == ']' then bracketItems n false s3 (acc ++ [(lo, hi)]) else none
                  | _ => bracketItems n false s3 (acc ++ [(lo, hi)])
                else none
          | _ => bracketItems n false s1 (acc ++ [(lo, lo)])

/-- A bracket expression after its opening bracket. -/
def parseBracket (s : List Char) : Option (Regex × List Char) :=
  match s with
  | '^' :: s1 =>
    match bracketItems (s1.length + 1) true s1 [] with
    | some (rs, rest) => some (Regex.set true rs, rest)
    | none => none
  | _ =>
    match bracketItems (s.length + 1) true s [] with
    | some (rs, rest) => some (Regex.set false rs, rest)
    | none => none

/-- The number written by a sequence of digits. -/
def digitsValue (ds : List Char) : Nat := ds.foldl (fun n c => 10 * n + (c.toNat - 48)) 0

/-- The expression `n` times in a row. -/
def repeatN (a : Regex) : Nat → Regex
  | 0 => Regex.empty
  | n + 1 => Regex.seq a (repeatN a n)

/-- The expression at most `n` times in a row. -/
def optionalN (a : Regex) : Nat → Regex
  | 0 => Regex.empty
  | n + 1 => Regex.alt (Regex.seq a (optionalN a n)) Regex.empty

/-- An interval after its opening brace: a count, a lower bound, or both bounds. -/
def parseInterval (a : Regex) (s : List Char) : Option (Regex × List Char) :=
  let ds := s.takeWhile Char.isDigit
  if ds.isEmpty then none
  else
    match s.dropWhile Char.isDigit with
    | c :: s1 =>
      if c.toNat == 125 then some (repeatN a (digitsValue ds), s1)
      else if c == ',' then
        let es := s1.takeWhile Char.isDigit
        match s1.dropWhile Char.isDigit with
        | d :: s2 =>
          if d.toNat == 125 then
            if es.isEmpty then some (Regex.seq (repeatN a (digitsValue ds)) (Regex.star a), s2)
            else if digitsValue ds ≤ digitsValue es then
              some (Regex.seq (repeatN a (digitsValue ds))
                (optionalN a (digitsValue es - digitsValue ds)), s2)
            else none
          else none
        | [] => none
      else none
    | [] => none

/-- Rejects a duplication symbol that follows another one. -/
def noSecondDup (r : Option (Regex × List Char)) : Option (Regex × List Char) :=
  match r with
  | some (e, c :: s1) => if isDupSymbol c then none else some (e, c :: s1)
  | other => other

/-- The duplication symbol, if any, after the expression `a`. -/
def parseDup (a : Regex) (s : List Char) : Option (Regex × List Char) :=
  match s with
  | c :: s1 =>
    if c == '*' then noSecondDup (some (Regex.star a, s1))
    else if c == '+' then noSecondDup (some (Regex.seq a (Regex.star a), s1))
    else if c == '?' then noSecondDup (some (Regex.alt a Regex.empty, s1))
    else if c.toNat == 123 then noSecondDup (parseInterval a s1)
    else some (a, s)
  | [] => some (a, s)

mutual
/-- An extended regular expression: branches separated by vertical bars. The first argument
bounds the depth of the descent; `inGroup` holds between parentheses. -/
def parseERE : Nat → Bool → List Char → Option (Regex × List Char)
  | 0, _, _ => none
  | n + 1, inGroup, s =>
    match parseBranch n inGroup s with
    | none => none
    | some (r1, s1) =>
      match s1 with
      | '|' :: s2 =>
        match parseERE n inGroup s2 with
        | none => none
        | some (r2, s3) => some (Regex.alt r1 r2, s3)
      | _ => some (r1, s1)
/-- A branch: one or more expressions in a row. -/
def parseBranch : Nat → Bool → List Char → Option (Regex × List Char)
  | 0, _, _ => none
  | n + 1, inGroup, s =>
    match parseExpr n inGroup s with
    | none => none
    | some (e, s1) =>
      match s1 with
      | [] => some (e, s1)
      | c :: _ =>
        if c == '|' || (inGroup && c == ')') then some (e, s1)
        else
          match parseBranch n inGroup s1 with
          | none => none
          | some (r, s2) => some (Regex.seq e r, s2)
/-- One expression with its duplication symbol: a group, a bracket expression, the dot, an
anchor, a quoted special character or an ordinary character; a closing parenthesis without
an opening one is ordinary. -/
def parseExpr : Nat → Bool → List Char → Option (Regex × List Char)
  | 0, _, _ => none
  | n + 1, inGroup, s =>
    match s with
    | [] => none
    | c :: s1 =>
      if c == '(' then
        match parseERE n true s1 with
        | some (r, d :: s2) => if d == ')' then parseDup r s2 else none
        | _ => none
      else if c == ')' then (if inGroup then none else parseDup (Regex.char c) s1)
      else if c == '[' then
        match parseBracket s1 with
        | some (r, s2) => parseDup r s2
        | none => none
      else if c == '.' then parseDup Regex.any s1
      else if c == '^' then
        match s1 with
        | d :: _ => if isDupSymbol d then none else some (Regex.bol, s1)
        | [] => some (Regex.bol, s1)
      else if c == '$' then parseDup Regex.eol s1
      else if c == '\\' then
        match s1 with
        | d :: s2 => if isSpecial d then parseDup (Regex.char d) s2 else none
        | [] => none
      else if c == '|' || isDupSymbol c then none
      else parseDup (Regex.char c) s1
end

/-- Compilation of a pattern (`regcomp` with `REG_EXTENDED`); `none` for an invalid
pattern. -/
def regcomp (pat : String) : Option Regex :=
  match parseERE (3 * pat.data.length + 3) false pat.data with
  | some (r, []) => some r
  | _ => none

/-- Key selection of `git config --get-regexp`: the compiled pattern applied anywhere in the
key. The dots of the namespace string that `loadConfig` passes are operators: each stands for
any character. -/
def dotMatch (pat : String) : Option (String → Bool) :=
  match regcomp pat with
  | some r => some (fun key => r.search true key.data)
  | none => none

/-- A repository reached through `git`, its handle being its path. -/
def gitHost (compile : String → Option (String → Bool)) : Host GitStore String :=
  { run := gitRun compile, GetPath := fun path => path }

/-! ## Inputs used by the concrete evaluations -/

/-- A plugin of type "github" that supports neither import nor export and whose interactive
configuration yields one token. -/
def stubImpl : BridgeImpl GitStore String :=
  { TypeName := "github"
    Configure := fun _ s => (Except.ok [("token", "abc")], s)
    Importer := none
    Exporter := none }

/-- An importer and an exporter that leave the repository alone and report success. -/
def okImporter : Importer GitStore String :=
  { ImportAll := fun _ _ s => (none, s), Import := fun _ _ _ s => (none, s) }

/-- An exporter that leaves the repository alone and reports success. -/
def okExporter : Exporter GitStore String :=
  { ExportAll := fun _ _ s => (none, s), Export := fun _ _ _ s => (none, s) }

/-- A plugin of type "github" with both capabilities. -/
def fullImpl : BridgeImpl GitStore String :=
  { stubImpl with Importer := some okImporter, Exporter := some okExporter }

/-- The bridge of type "github" named `name`, nothing cached. -/
def stubBridge (name : String) : Bridge GitStore String :=
  { Name := name, impl := stubImpl, conf := none }

/-- The bridge with both capabilities named `name`, nothing cached. -/
def fullBridge (name : String) : Bridge GitStore String :=
  { Name := name, impl := fullImpl, conf := none }

/-- A repository with the given configuration entries and an empty call log. -/
def freshWorld (entries : GitStore) : World GitStore String :=
  { ext := entries, log := [] }

/-! ## Specification vocabulary -/

/-- The type is a key of the registry. -/
def Registered {τ : Type} (bridgeImpl : Registry τ) (_type : String) : Prop :=
  ∃ m t, bridgeImpl = some m ∧ (_type, t) ∈ m

/-- The external commands of a log with their outcomes, in order. -/
def execsOf {ρ : Type} : List (Event ρ) → List (Cmd × CmdResult)
  | [] => []
  | Event.exec cmd res :: rest => (cmd, res) :: execsOf rest
  | _ :: rest => execsOf rest

/-- Whether the event is a call of one of the four `Importer`/`Exporter` methods. -/
def Event.isMethodCall {ρ : Type} : Event ρ → Bool
  | Event.callImportAll _ _ => true
  | Event.callImport _ _ _ => true
  | Event.callExportAll _ _ => true
  | Event.callExport _ _ _ => true
  | _ => false

/-- The `Importer`/`Exporter` method calls of a log, in order. -/
def methodCalls {ρ : Type} (log : List (Event ρ)) : List (Event ρ) :=
  log.filter Event.isMethodCall

/-- The dispatch contract of one operation whose capability is present: `res` is the outcome
of the operation started in `w`, `accessor` the event of the capability accessor, `method`
the plugin method and `call` the event of calling it. If `getConfig` fails, `res` is its error
in the world it left, with no method call; if it succeeds, `res` is the result of the method
on the configuration returned, and the method call is the one new method call of the log. -/
def DispatchSpec {σ ρ : Type} (h : Host σ ρ) (b : Bridge σ ρ) (repo : ρ) (w : World σ ρ)
    (accessor : Event ρ) (method : Configuration → σ → Option GoError × σ)
    (call : Configuration → Event ρ) (res : Option GoError × World σ ρ) : Prop :=
  (∀ err, (getConfig h b repo (w.record accessor)).1 = Except.error err →
      res = (some err, (getConfig h b repo (w.record accessor)).2) ∧
      methodCalls res.2.log = methodCalls w.log) ∧
  (∀ conf, (getConfig h b repo (w.record accessor)).1 = Except.ok conf →
      res.1 = (method conf (getConfig h b repo (w.record accessor)).2.ext).1 ∧
      res.2.ext = (method conf (getConfig h b repo (w.record accessor)).2.ext).2 ∧
      methodCalls res.2.log = methodCalls w.log ++ [call conf])

theorem mapGet_mapSet_self {α : Type} (m : GoMap α) (k : String) (v : α) :
    mapGet (mapSet m k v) k = some v := by
  induction m with
  | nil => simp [mapSet, mapGet]
  | cons e rest ih =>
    obtain ⟨k0, v0⟩ := e
    by_cases hk : k0 = k
    · simp [mapSet, mapGet, hk]
    · simp [mapSet, mapGet, hk, ih]

theorem mapGet_eq_none_iff {α : Type} (m : GoMap α) (k : String) :
    mapGet m k = none ↔ ∀ v, (k, v) ∉ m := by
  induction m with
  | nil => simp [mapGet]
  | cons e rest ih =>
    obtain ⟨k0, v0⟩ := e
    by_cases hk : k0 = k
    · subst hk
      simp only [mapGet, if_true]
      constructor
      · intro h
        cases h
      · intro h
        exact absurd (List.mem_cons_self _ _) (h v0)
    · simp only [mapGet, hk, if_false, ih]
      constructor
      · intro h v hv
        rcases List.mem_cons.mp hv with heq | hmem
        · exact hk (by injection heq with h1 _; exact h1.symm)
        · exact h v hmem
      · intro h v hv
        exact h v (List.mem_cons_of_mem _ hv)

/-! ## The registry -/

theorem registryGet_eq_none_iff {τ : Type} (reg : Registry τ) (t : String) :
    registryGet reg t = none ↔ ¬ Registered reg t := by
  cases reg with
  | none => simp [registryGet, Registered]
  | some m =>
    simp only [registryGet, mapGet_eq_none_iff, Registered]
    constructor
    · rintro h ⟨m1, v, hm, hv⟩
      cases hm
      exact h v hv
    · intro h v hv
      exact h ⟨m, v, rfl, hv⟩

/-- C2: after `Register(T, prototype)`, `LoadBridge(T, n)` does not return a `Bridge`: the
lookup succeeds and the body ends without a `return`. -/
theorem LoadBridge_registered_noReturn {σ ρ τ : Type} (reg : Registry τ) (T n : String)
    (implType : τ) :
    (LoadBridge (Register reg T implType) T n : LoadBridgeResult σ ρ)
      = LoadBridgeResult.noReturn := by
  simp [LoadBridge, Register, registryGet, mapGet_mapSet_self]

/-- C3: `LoadBridge(U, n)` returns no `Bridge` together with the error
"unknown bridge type U" exactly when `U` is not a key of the registry, which covers the
registry that was never written. -/
theorem LoadBridge_unknown_iff {σ ρ τ : Type} (reg : Registry τ) (U n : String) :
    ((LoadBridge reg U n : LoadBridgeResult σ ρ)
        = LoadBridgeResult.returned none (some (GoError.Errorf ("unknown bridge type " ++ U)))
      ↔ ¬ Registered reg U)
    ∧ ((LoadBridge (none : Registry τ) U n : LoadBridgeResult σ ρ)
        = LoadBridgeResult.returned none (some (GoError.Errorf ("unknown bridge type " ++ U))))
    ∧ (∀ b err, (LoadBridge reg U n : LoadBridgeResult σ ρ) = LoadBridgeResult.returned b err →
        ¬ Registered reg U) := by
  refine ⟨?_, ?_, ?_⟩
  · rw [← registryGet_eq_none_iff]
    unfold LoadBridge
    cases hg : registryGet reg U with
    | none => simp
    | some t => simp
  · simp [LoadBridge, registryGet]
  · intro b err
    rw [← registryGet_eq_none_iff]
    unfold LoadBridge
    cases hg : registryGet reg U with
    | none => simp
    | some t => simp

/-! ## Store keys -/

theorem dot_split {a b x y : List Char} (ha : '.' ∉ a) (hb : '.' ∉ b)
    (h : a ++ '.' :: x = b ++ '.' :: y) : a = b ∧ x = y := by
  induction a generalizing b with
  | nil =>
    cases b with
    | nil => simpa using h
    | cons c b1 =>
      simp only [List.nil_append, List.cons_append, List.cons.injEq] at h
      exact absurd (List.mem_cons.mpr (Or.inl h.1)) hb
  | cons c a1 ih =>
    cases b with
    | nil =>
      simp only [List.nil_append, List.cons_append, List.cons.injEq] at h
      exact absurd (List.mem_cons.mpr (Or.inl h.1.symm)) ha
    | cons d b1 =>
      simp only [List.cons_append, List.cons.injEq] at h
      have ha1 : '.' ∉ a1 := fun hm => ha (List.mem_cons_of_mem _ hm)
      have hb1 : '.' ∉ b1 := fun hm => hb (List.mem_cons_of_mem _ hm)
      obtain ⟨h1, h2⟩ := ih ha1 hb1 h.2
      exact ⟨by rw [h.1, h1], h2⟩

theorem storeKey_data (t n k : String) :
    (storeKey t n k).data = "git-bug.".data ++ (t.data ++ '.' :: (n.data ++ '.' :: k.data)) := by
  simp [storeKey, String.data_append]

theorem storeKey_inj_of_no_dot {t1 n1 k1 t2 n2 k2 : String}
    (ht1 : '.' ∉ t1.data) (hn1 : '.' ∉ n1.data) (ht2 : '.' ∉ t2.data) (hn2 : '.' ∉ n2.data)
    (h : storeKey t1 n1 k1 = storeKey t2 n2 k2) : t1 = t2 ∧ n1 = n2 ∧ k1 = k2 := by
  have hd := congrArg String.data h
  rw [storeKey_data, storeKey_data] at hd
  have h1 := List.append_cancel_left hd
  obtain ⟨e1, r1⟩ := dot_split ht1 ht2 h1
  obtain ⟨e2, e3⟩ := dot_split hn1 hn2 r1
  exact ⟨String.ext e1, String.ext e2, String.ext e3⟩

/-- C4, as stated, fails: type "a" with name "b.c" and type "a.b" with name "c" are different
bridges whose store keys for the configuration key "d" coincide. -/
theorem storeKey_collision :
    ("a", "b.c") ≠ ("a.b", "c") ∧ storeKey "a" "b.c" "d" = storeKey "a.b" "c" "d" := by
  decide

/-- C4, amended: for types and names that contain no dot, the store keys of two different
bridges differ, whatever the configuration keys are. -/
theorem storeKey_no_collision (t1 n1 k1 t2 n2 k2 : String)
    (ht1 : '.' ∉ t1.data) (hn1 : '.' ∉ n1.data) (ht2 : '.' ∉ t2.data) (hn2 : '.' ∉ n2.data)
    (hne : (t1, n1) ≠ (t2, n2)) :
    storeKey t1 n1 k1 ≠ storeKey t2 n2 k2 := by
  intro h
  obtain ⟨e1, e2, _⟩ := storeKey_inj_of_no_dot ht1 hn1 ht2 hn2 h
  exact hne (by rw [e1, e2])

/-- Witness of `storeKey_no_collision`: the bridges ("github", "a") and ("github", "b"). -/
theorem storeKey_no_collision_witness :
    ('.' ∉ "github".data ∧ '.' ∉ "a".data ∧ '.' ∉ "b".data ∧
      (("github", "a") : String × String) ≠ ("github", "b")) ∧
    storeKey "github" "a" "token" ≠ storeKey "github" "b" "token" :=
  ⟨by decide, storeKey_no_collision "github" "a" "token" "github" "b" "token"
    (by decide) (by decide) (by decide) (by decide) (by decide)⟩

/-! ## Capability gating and dispatch -/

theorem methodCalls_append {ρ : Type} (l1 l2 : List (Event ρ)) :
    methodCalls (l1 ++ l2) = methodCalls l1 ++ methodCalls l2 := by
  simp [methodCalls]

theorem loadConfig_methodCalls {σ ρ : Type} (h : Host σ ρ) (b : Bridge σ ρ) (repo : ρ)
    (w : World σ ρ) : methodCalls (loadConfig h b repo w).2.log = methodCalls w.log := by
  simp only [loadConfig]
  split <;> simp [execCmd, World.record, methodCalls, Event.isMethodCall]

theorem getConfig_methodCalls {σ ρ : Type} (h : Host σ ρ) (b : Bridge σ ρ) (repo : ρ)
    (w : World σ ρ) : methodCalls (getConfig h b repo w).2.log = methodCalls w.log := by
  unfold getConfig
  cases hc : b.conf with
  | some conf => rfl
  | none =>
    have hl := loadConfig_methodCalls h b repo w
    cases hr : loadConfig h b repo w with
    | mk r w1 =>
      rw [hr] at hl
      cases r with
      | error err => exact hl
      | ok conf => exact hl

/-- C6: when `Importer()` returns nil, `ImportAll` and `Import` (for every id) return exactly
`ErrImportNorSupported`, leave the external state as it is and add to the log nothing but the
call of the accessor: no command is run and no other plugin method is called. The same holds
for `ExportAll` and `Export` with `Exporter()` and `ErrExportNorSupported`. -/
theorem capability_gating {σ ρ : Type} (h : Host σ ρ) (b : Bridge σ ρ) (repo : ρ)
    (w : World σ ρ) :
    (b.impl.Importer = none →
      ImportAll h b repo w
          = (some GoError.ErrImportNorSupported, { ext := w.ext, log := w.log ++ [Event.callImporter] }) ∧
      ∀ id, Import h b repo id w
          = (some GoError.ErrImportNorSupported, { ext := w.ext, log := w.log ++ [Event.callImporter] })) ∧
    (b.impl.Exporter = none →
      ExportAll h b repo w
          = (some GoError.ErrExportNorSupported, { ext := w.ext, log := w.log ++ [Event.callExporter] }) ∧
      ∀ id, Export h b repo id w
          = (some GoError.ErrExportNorSupported, { ext := w.ext, log := w.log ++ [Event.callExporter] })) := by
  constructor
  · intro hn
    constructor
    · simp [ImportAll, hn, World.record]
    · intro id
      simp [Import, hn, World.record]
  · intro hn
    constructor
    · simp [ExportAll, hn, World.record]
    · intro id
      simp [Export, hn, World.record]

/-- Witness of `capability_gating`: the plugin without capabilities, on an empty
repository. -/
theorem capability_gating_witness :
    ((stubBridge "x").impl.Importer = none ∧ (stubBridge "x").impl.Exporter = none) ∧
    ImportAll (gitHost dotMatch) (stubBridge "x") "/repo" (freshWorld [])
      = (some GoError.ErrImportNorSupported, { ext := [], log := [Event.callImporter] }) ∧
    ExportAll (gitHost dotMatch) (stubBridge "x") "/repo" (freshWorld [])
      = (some GoError.ErrExportNorSupported, { ext := [], log := [Event.callExporter] }) :=
  ⟨⟨rfl, rfl⟩,
    ((capability_gating (gitHost dotMatch) (stubBridge "x") "/repo" (freshWorld [])).1 rfl).1,
    ((capability_gating (gitHost dotMatch) (stubBridge "x") "/repo" (freshWorld [])).2 rfl).1⟩

theorem dispatch_aux {σ ρ : Type} (h : Host σ ρ) (b : Bridge σ ρ) (repo : ρ) (w : World σ ρ)
    (accessor : Event ρ) (hacc : accessor.isMethodCall = false)
    (method : Configuration → σ → Option GoError × σ) (call : Configuration → Event ρ)
    (hcall : ∀ conf, (call conf).isMethodCall = true) :
    DispatchSpec h b repo w accessor method call
      (match getConfig h b repo (w.record accessor) with
        | (Except.error err, w2) => (some err, w2)
        | (Except.ok conf, w2) =>
          ((method conf (w2.record accessor).ext).1,
            { ext := (method conf (w2.record accessor).ext).2,
              log := (w2.record accessor).log ++ [call conf] })) := by
  have hm := getConfig_methodCalls h b repo (w.record accessor)
  have hw : methodCalls (w.record accessor).log = methodCalls w.log := by
    simp [World.record, methodCalls, hacc]
  rw [hw] at hm
  unfold DispatchSpec
  cases hg : getConfig h b repo (w.record accessor) with
  | mk r w2 =>
    rw [hg] at hm
    cases r with
    | error e =>
      refine ⟨?_, ?_⟩
      · intro err herr
        cases herr
        exact ⟨rfl, hm⟩
      · intro conf hconf
        cases hconf
    | ok c =>
      refine ⟨?_, ?_⟩
      · intro err herr
        cases herr
      · intro conf hconf
        cases hconf
        refine ⟨rfl, rfl, ?_⟩
        simp only [World.record, List.append_assoc, methodCalls_append]
        rw [hm]
        simp [methodCalls, hacc, hcall]

/-- C10: when the plugin provides the capability, each of `ImportAll`, `Import`, `ExportAll`
and `Export` calls `getConfig`; if that fails, the operation returns the same error, ends in
the world `getConfig` left and has called no `Importer`/`Exporter` method; if it succeeds,
the operation calls the matching method once, with the same repository handle, the
configuration `getConfig` returned (and the same id), and returns the method's result. -/
theorem dispatch {σ ρ : Type} (h : Host σ ρ) (b : Bridge σ ρ) (repo : ρ) (w : World σ ρ) :
    (∀ importer, b.impl.Importer = some importer →
      DispatchSpec h b repo w Event.callImporter (importer.ImportAll repo)
        (Event.callImportAll repo) (ImportAll h b repo w) ∧
      ∀ id, DispatchSpec h b repo w Event.callImporter (fun conf => importer.Import repo conf id)
        (fun conf => Event.callImport repo conf id) (Import h b repo id w)) ∧
    (∀ exporter, b.impl.Exporter = some exporter →
      DispatchSpec h b repo w Event.callExporter (exporter.ExportAll repo)
        (Event.callExportAll repo) (ExportAll h b repo w) ∧
      ∀ id, DispatchSpec h b repo w Event.callExporter (fun conf => exporter.Export repo conf id)
        (fun conf => Event.callExport repo conf id) (Export h b repo id w)) := by
  constructor
  · intro importer hi
    constructor
    · have := dispatch_aux h b repo w Event.callImporter rfl (importer.ImportAll repo)
        (Event.callImportAll repo) (fun _ => rfl)
      simpa [ImportAll, hi] using this
    · intro id
      have := dispatch_aux h b repo w Event.callImporter rfl
        (fun conf => importer.Import repo conf id) (fun conf => Event.callImport repo conf id)
        (fun _ => rfl)
      simpa [Import, hi] using this
  · intro exporter he
    constructor
    · have := dispatch_aux h b repo w Event.callExporter rfl (exporter.ExportAll repo)
        (Event.callExportAll repo) (fun _ => rfl)
      simpa [ExportAll, he] using this
    · intro id
      have := dispatch_aux h b repo w Event.callExporter rfl
        (fun conf => exporter.Export repo conf id) (fun conf => Event.callExport repo conf id)
        (fun _ => rfl)
      simpa [Export, he] using this

/-- Witness of `dispatch`: a plugin with both capabilities on a repository holding one
entry for the bridge; `getConfig` succeeds and `ImportAll` is called once with its result. -/
theorem dispatch_witness :
    (fullBridge "x").impl.Importer = some okImporter ∧
    (getConfig (gitHost dotMatch) (fullBridge "x") "/repo"
        ((freshWorld [("git-bug.github.x.token", "abc")]).record Event.callImporter)).1
      = Except.ok [("git-bug.github.x.token", "abc")] ∧
    (ImportAll (gitHost dotMatch) (fullBridge "x") "/repo"
        (freshWorld [("git-bug.github.x.token", "abc")])).1 = none ∧
    methodCalls (ImportAll (gitHost dotMatch) (fullBridge "x") "/repo"
        (freshWorld [("git-bug.github.x.token", "abc")])).2.log
      = [Event.callImportAll "/repo" [("git-bug.github.x.token", "abc")]] :=
  ⟨rfl, rfl,
    ((((dispatch (gitHost dotMatch) (fullBridge "x") "/repo"
        (freshWorld [("git-bug.github.x.token", "abc")])).1 okImporter rfl).1).2
          [("git-bug.github.x.token", "abc")] rfl).1,
    ((((dispatch (gitHost dotMatch) (fullBridge "x") "/repo"
        (freshWorld [("git-bug.github.x.token", "abc")])).1 okImporter rfl).1).2
          [("git-bug.github.x.token", "abc")] rfl).2.2⟩

/-! ## Configuration caching -/

/-- C7: two successive `getConfig` calls on the same `Bridge` value, nothing cached at first
and the load succeeding, run the query `git config --get-regexp` twice: the second call
loads again. -/
theorem getConfig_twice_loads_twice :
    (stubBridge "x").conf = none ∧
    (getConfig (gitHost dotMatch) (stubBridge "x") "/repo"
        (freshWorld [("git-bug.github.x.token", "abc")])).1
      = Except.ok [("git-bug.github.x.token", "abc")] ∧
    execsOf (getConfig (gitHost dotMatch) (stubBridge "x") "/repo"
        (getConfig (gitHost dotMatch) (stubBridge "x") "/repo"
          (freshWorld [("git-bug.github.x.token", "abc")])).2).2.log
      = [(loadCmd "/repo" "git-bug.github.x",
            { out := "git-bug.github.x.token abc\n", failed := false }),
         (loadCmd "/repo" "git-bug.github.x",
            { out := "git-bug.github.x.token abc\n", failed := false })] := by
  refine ⟨rfl, rfl, ?_⟩
  rfl

/-! ## Storing a configuration -/

/-- C1: on the bridge ("github", "x"), storing the configuration "token" = "abc", every write
succeeding, and loading on the same bridge does not return that configuration: the result has
no key "token"; its only key is the store key "git-bug.github.x.token". -/
theorem store_then_load_keeps_store_key :
    (storeConfig (gitHost dotMatch) (stubBridge "x") "/repo" [("token", "abc")]
        (freshWorld [])).1 = none ∧
    execsOf (storeConfig (gitHost dotMatch) (stubBridge "x") "/repo" [("token", "abc")]
        (freshWorld [])).2.log
      = [(storeCmd "/repo" "git-bug.github.x.token" "abc", { out := "", failed := false })] ∧
    (loadConfig (gitHost dotMatch) (stubBridge "x") "/repo"
        (storeConfig (gitHost dotMatch) (stubBridge "x") "/repo" [("token", "abc")]
          (freshWorld [])).2).1 = Except.ok [("git-bug.github.x.token", "abc")] ∧
    mapGet ([("git-bug.github.x.token", "abc")] : Configuration) "token" = none ∧
    mapGet ([("token", "abc")] : Configuration) "token" = some "abc" :=
  ⟨rfl, rfl, rfl, by decide, by decide⟩

/-- C5: storing the token of the bridge ("github", "ab") and loading the bridge
("github", "a"), of the same type and another name, returns the entry written for "ab";
storing the token of ("github", "ub") and loading ("git", "ub"), of another type and the same
name, returns the entry written for the type "github". -/
theorem load_observes_other_bridge :
    ((("github", "a") : String × String) ≠ ("github", "ab") ∧
      (loadConfig (gitHost dotMatch) (stubBridge "a") "/repo"
        (storeConfig (gitHost dotMatch) (stubBridge "ab") "/repo" [("token", "abc")]
          (freshWorld [])).2).1
        = Except.ok [(storeKey "github" "ab" "token", "abc")]) ∧
    ((("git", "ub") : String × String) ≠ ("github", "ub") ∧
      (loadConfig (gitHost dotMatch)
        ({ Name := "ub", impl := { stubImpl with TypeName := "git" }, conf := none })
        "/repo"
        (storeConfig (gitHost dotMatch) (stubBridge "ub") "/repo" [("token", "abc")]
          (freshWorld [])).2).1
        = Except.ok [(storeKey "github" "ub" "token", "abc")]) :=
  ⟨⟨by decide, rfl⟩, ⟨by decide, rfl⟩⟩

end GitBug
